import Mathlib

/-!
Shallow embedding of `aves` (`src/aves/io.py`, `src/aves/realtime.py`):
sensor-sample sources (`ReadSensorFile`, `ReadSensorSerial`), the file sink
(`WriteSensorFile`), the bounded per-field buffers (`DataBuffers`) and the
real-time acquisition loop (`RealTimeAnalysis`).

Python strings are embedded as `List Char`; Python floats as `ℚ` (the
decimal tokens the program reads and writes denote rationals, and Python 3
float formatting round-trips, which enters the theorems as an explicit
hypothesis on the formatting function).  Python exceptions are embedded as
`Except PyError`.
-/

set_option autoImplicit false

namespace Aves

/-- Python strings, embedded as lists of characters. -/
abbrev Str := List Char

/-- The whitespace characters that Python `str.split()` splits on. -/
def isWs (c : Char) : Bool :=
  c = ' ' || c = '\t' || c = '\n' || c = '\x0d' || c = '\x0b' || c = '\x0c'

/-- One pass of Python `str.split()`: `acc` holds the pending token in
reverse; a whitespace character flushes it, the end of the string flushes
the final token. -/
def splitWsAux : Str → Str → List Str
  | [], acc => if acc = [] then [] else [acc.reverse]
  | c :: cs, acc =>
    if isWs c then
      if acc = [] then splitWsAux cs [] else acc.reverse :: splitWsAux cs []
    else splitWsAux cs (c :: acc)

/-- Python `str.split()` (no separator): split on runs of whitespace,
returning no empty fields. -/
def splitWs (s : Str) : List Str :=
  splitWsAux s []

/-- The natural number denoted by a list of decimal digits. -/
def natOfDigits (ds : List Char) : ℕ :=
  ds.foldl (fun n c => 10 * n + (c.toNat - 48)) 0

/-- Parse an unsigned decimal mantissa: digits with at most one point,
at least one digit overall. -/
def parseUnsigned (s : Str) : Option ℚ :=
  let ip := s.takeWhile Char.isDigit
  match s.dropWhile Char.isDigit with
  | [] => if ip = [] then none else some (natOfDigits ip)
  | '.' :: fp =>
    if fp.all Char.isDigit && !(ip = [] && fp = []) then
      some ((natOfDigits (ip ++ fp) : ℚ) / (10 : ℚ) ^ fp.length)
    else none
  | _ => none

/-- Parse an optionally signed decimal mantissa. -/
def parseSigned (s : Str) : Option ℚ :=
  match s with
  | '-' :: rest => (parseUnsigned rest).map (fun q => -q)
  | '+' :: rest => parseUnsigned rest
  | _ => parseUnsigned s

/-- Parse an optionally signed decimal exponent. -/
def parseExpInt (s : Str) : Option ℤ :=
  match s with
  | '-' :: rest =>
    if rest ≠ [] && rest.all Char.isDigit then some (-(natOfDigits rest : ℤ)) else none
  | '+' :: rest =>
    if rest ≠ [] && rest.all Char.isDigit then some (natOfDigits rest : ℤ) else none
  | _ => if s ≠ [] && s.all Char.isDigit then some (natOfDigits s : ℤ) else none

/-- Split a numeric token at the first exponent marker `e`/`E`. -/
def breakAtExp (s : Str) : Str × Option Str :=
  match s with
  | [] => ([], none)
  | c :: cs =>
    if c = 'e' || c = 'E' then ([], some cs)
    else
      let p := breakAtExp cs
      (c :: p.1, p.2)

/-- Python `float(token)` on a whitespace-free token: the rational the
decimal token denotes, or `none` when the token is malformed
(`ValueError`). -/
def parseFloat (s : Str) : Option ℚ :=
  let p := breakAtExp s
  match parseSigned p.1 with
  | none => none
  | some m =>
    match p.2 with
    | none => some m
    | some es =>
      match parseExpInt es with
      | none => none
      | some e => some (m * (10 : ℚ) ^ e)

/-- The Python exceptions the embedded code can raise. -/
inductive PyError where
  | valueError
  | indexError
  | keyError
  | attributeError
deriving DecidableEq, Repr

instance {ε α : Type} [DecidableEq ε] [DecidableEq α] : DecidableEq (Except ε α) := fun x y =>
  match x, y with
  | .error a, .error b =>
    if h : a = b then .isTrue (congrArg Except.error h)
    else .isFalse (fun he => h (Except.error.inj he))
  | .error _, .ok _ => .isFalse (fun he => Except.noConfusion he)
  | .ok _, .error _ => .isFalse (fun he => Except.noConfusion he)
  | .ok a, .ok b =>
    if h : a = b then .isTrue (congrArg Except.ok h)
    else .isFalse (fun he => h (Except.ok.inj he))

/-- The list-comprehension `[float(val) for val in tokens]`: all tokens
parsed, or `ValueError` at the first malformed one. -/
def parseFloats (ts : List Str) : Except PyError (List ℚ) :=
  match ts with
  | [] => .ok []
  | t :: rest =>
    match parseFloat t with
    | none => .error .valueError
    | some q => (parseFloats rest).map (fun qs => q :: qs)

/-- A sample value: the first file column holds the raw token (a string),
the others hold parsed floats. -/
inductive Value where
  | str (s : Str)
  | num (q : ℚ)
deriving DecidableEq, Repr

/-- A sample: a Python dict from field name to value, embedded as an
association list in insertion order. -/
abbrev Sample := List (Str × Value)

/-- Python dict assignment `d[k] = v`: replace the value at the first
occurrence of `k`, keeping its position, else append the new key. -/
def dictSet (d : Sample) (k : Str) (v : Value) : Sample :=
  match d with
  | [] => [(k, v)]
  | (k', v') :: rest => if k' = k then (k, v) :: rest else (k', v') :: dictSet rest k v

/-- Python dict lookup `d[k]` as an option. -/
def dictLookup (d : Sample) (k : Str) : Option Value :=
  match d with
  | [] => none
  | (k', v') :: rest => if k' = k then some v' else dictLookup rest k

/-- Python dict indexing `d[k]`: `KeyError` when the key is missing. -/
def dictGet (d : Sample) (k : Str) : Except PyError Value :=
  match dictLookup d k with
  | none => .error .keyError
  | some v => .ok v

/-! ## `DataBuffers` (`io.py` lines 311-350)

`self.data` is a `defaultdict` from sensor name to a `deque` created with
the buffer's `maxlen`; it is embedded as an association list in insertion
order together with the shared `maxlen`.  A bounded deque keeps the last
`maxlen` elements on `append` (dropping from the left) and the first
`maxlen` elements on `appendleft` (dropping from the right). -/

/-- The last `m` elements of a list: what remains of a bounded deque of
capacity `m` after appends have dropped older elements from the left. -/
def lastN {α : Type} (m : ℕ) (l : List α) : List α :=
  (l.reverse.take m).reverse

/-- `deque.append(v)` on a deque of capacity `m` (`none` = unbounded). -/
def dqAppend (m : Option ℕ) (xs : List Value) (v : Value) : List Value :=
  match m with
  | none => xs ++ [v]
  | some m => lastN m (xs ++ [v])

/-- `deque.appendleft(v)` on a deque of capacity `m` (`none` = unbounded):
the new element goes to the front, overflow is dropped from the right. -/
def dqAppendLeft (m : Option ℕ) (xs : List Value) (v : Value) : List Value :=
  match m with
  | none => v :: xs
  | some m => (v :: xs).take m

/-- `self.data[sensor]` followed by a deque mutation `f`: the `defaultdict`
creates an empty deque for a missing key (appended in insertion order),
then `f` acts on that key's deque. -/
def bufApply (data : List (Str × List Value)) (k : Str) (f : List Value → List Value) :
    List (Str × List Value) :=
  match data with
  | [] => [(k, f [])]
  | (k', xs) :: rest =>
    if k' = k then (k', f xs) :: rest else (k', xs) :: bufApply rest k f

/-- Reading `self.data[sensor]` as a plain list (missing key: the fresh
empty deque the `defaultdict` would create). -/
def bufGet (data : List (Str × List Value)) (k : Str) : List Value :=
  match data with
  | [] => []
  | (k', xs) :: rest => if k' = k then xs else bufGet rest k

/-- Iterate `sample.items()`, applying the deque operation `dq` to each
field's deque in turn. -/
def bufFold (dq : List Value → Value → List Value) (data : List (Str × List Value))
    (s : Sample) : List (Str × List Value) :=
  s.foldl (fun d kv => bufApply d kv.1 (fun xs => dq xs kv.2)) data

/-- The state of a `DataBuffers` object: the shared `maxlen` and the
per-sensor deques in insertion order. -/
structure DataBuffers where
  maxlen : Option ℕ
  data : List (Str × List Value)
deriving DecidableEq, Repr

/-- `DataBuffers.append`: `self.data[sensor].append(value)` for each item. -/
def DataBuffers.append (b : DataBuffers) (s : Sample) : DataBuffers :=
  { b with data := bufFold (dqAppend b.maxlen) b.data s }

/-- `DataBuffers.appendleft`: `self.data[sensor].appendleft(value)` for each
item. -/
def DataBuffers.appendleft (b : DataBuffers) (s : Sample) : DataBuffers :=
  { b with data := bufFold (dqAppendLeft b.maxlen) b.data s }

/-- `DataBuffers.extend`: `self.append(sample)` for each sample. -/
def DataBuffers.extend (b : DataBuffers) (ss : List Sample) : DataBuffers :=
  ss.foldl DataBuffers.append b

/-- `DataBuffers.extendleft`: `self.appendleft(sample)` for each sample. -/
def DataBuffers.extendleft (b : DataBuffers) (ss : List Sample) : DataBuffers :=
  ss.foldl DataBuffers.appendleft b

/-- The rebuilt buffer dictionary that `set_maxlen` stores in its local
variable `data`: a full copy when the new `maxlen` is `None`, else
`list(values)[0:maxlen]` — the first `maxlen` entries of each field. -/
def DataBuffers.set_maxlen_local (b : DataBuffers) (maxlen : Option ℕ) :
    List (Str × List Value) :=
  b.data.map (fun kv =>
    match maxlen with
    | none => (kv.1, kv.2)
    | some m => (kv.1, kv.2.take m))

/-- `DataBuffers.set_maxlen`: the method rebuilds the buffers into the
local variable `data` and then returns without assigning it to `self.data`
or updating `self.maxlen`, so the instance is left unchanged. -/
def DataBuffers.set_maxlen (b : DataBuffers) (maxlen : Option ℕ) : DataBuffers :=
  let _data := b.set_maxlen_local maxlen
  b

/-! ## `ReadSensorFile` (`io.py` lines 133-180)

A file is embedded as the list of its remaining lines, each stored without
its trailing newline; `readline` returns the line with `'\n'` appended, and
the empty string exactly at end of file (as Python's `readline` does). -/

/-- The module-level constant `TIME_COMPUTER = "time_computer"`. -/
def TIME_COMPUTER : Str := ['t', 'i', 'm', 'e', '_', 'c', 'o', 'm', 'p', 'u', 't', 'e', 'r']

/-- State of an open `ReadSensorFile`: the remaining lines of `self._file`
(without trailing newlines), `self._stop_sampling` and
`self._file_columns`. -/
structure ReadSensorFile where
  lines : List Str
  stop_sampling : Bool
  file_columns : List Str
deriving DecidableEq, Repr

/-- The loop `for i, field_name in enumerate(self._file_columns):
sample[field_name] = data_acq[i]`: `IndexError` when `data_acq` runs out
before the columns do. -/
def buildSample (cols : List Str) (data_acq : List Value) : Except PyError Sample :=
  go [] cols data_acq
where
  go (acc : Sample) : List Str → List Value → Except PyError Sample
    | [], _ => .ok acc
    | _ :: _, [] => .error .indexError
    | c :: cs, v :: vs => go (dictSet acc c v) cs vs

/-- The `while line[0] == '#'` loop: consume lines whose first character is
`'#'` (a line read back is the stored content plus `'\n'`, so a blank line
is `"\n"` and is not skipped); `none` when the remaining lines are all
comments and the next read has zero length (end of file). -/
def skipHash : List Str → Option (Str × List Str)
  | [] => none
  | l :: rest =>
    if (l ++ ['\n']).head? = some '#' then skipHash rest else some (l, rest)

theorem skipHash_length {lines rest : List Str} {l : Str}
    (h : skipHash lines = some (l, rest)) : rest.length < lines.length := by
  induction lines with
  | nil => simp [skipHash] at h
  | cons a as ih =>
    rw [skipHash] at h
    split at h
    · exact lt_trans (ih h) (by simp)
    · simp only [Option.some.injEq, Prod.mk.injEq] at h
      rw [← h.2]
      simp

/-- `ReadSensorFile.readsample`: skip lines whose first character is `'#'`;
a zero-length read (end of file) sets `stop_sampling` and returns the
sentinel `None`; otherwise split the line, keep the first field as a string,
parse the rest as floats (`ValueError` propagates) and assign the fields to
the configured columns (`IndexError` propagates). -/
def ReadSensorFile.readsample (r : ReadSensorFile) :
    Except PyError (ReadSensorFile × Option Sample) :=
  match skipHash r.lines with
  | none => .ok ({ r with lines := [], stop_sampling := true }, none)
  | some (l, rest) =>
    match splitWs (l ++ ['\n']) with
    | [] => .error .indexError
    | f0 :: fs =>
      match parseFloats fs with
      | .error e => .error e
      | .ok vals =>
        match buildSample r.file_columns (Value.str f0 :: vals.map Value.num) with
        | .error e => .error e
        | .ok sample => .ok ({ r with lines := rest }, some sample)

theorem ReadSensorFile.readsample_lines_lt (r r' : ReadSensorFile) (s : Sample)
    (h : r.readsample = .ok (r', some s)) : r'.lines.length < r.lines.length := by
  rw [ReadSensorFile.readsample] at h
  split at h
  · simp at h
  next l rest hs =>
    split at h
    · simp at h
    next f0 fs hsp =>
      split at h
      · simp at h
      next vals hp =>
        split at h
        · simp at h
        next sample hb =>
          simp only [Except.ok.injEq, Prod.mk.injEq] at h
          rw [← h.1]
          exact skipHash_length hs

/-- `ReadSensorFile.readsamples`: repeat `readsample`, counting down from
`num_samples` (so a negative count reads until the sentinel), dropping the
sentinel and stopping at it. -/
def ReadSensorFile.readsamples (r : ReadSensorFile) (num_samples : ℤ) :
    Except PyError (ReadSensorFile × List Sample) :=
  if num_samples = 0 then .ok (r, [])
  else
    match h : r.readsample with
    | .error e => .error e
    | .ok (r', none) => .ok (r', [])
    | .ok (r', some s) =>
      match r'.readsamples (num_samples - 1) with
      | .error e => .error e
      | .ok (r'', out) => .ok (r'', s :: out)
termination_by r.lines.length
decreasing_by exact ReadSensorFile.readsample_lines_lt _ _ _ h

/-- `ReadSensorFile.open`: a handle is acquired only when `self._filename`
is not `None`; the handle is the file's list of lines. -/
def file_open (filename : Option Str) (contents : List Str) : Option (List Str) :=
  match filename with
  | none => none
  | some _ => some contents

/-- `ReadSensorFile.close` is `self._file.close()`: when no handle was ever
acquired, `self._file` is `None` and the attribute access raises
`AttributeError`. -/
def file_close (file : Option (List Str)) : Except PyError Unit :=
  match file with
  | none => .error .attributeError
  | some _ => .ok ()

/-! ## `ReadSensorSerial` (`io.py` lines 183-264)

The serial device is embedded as the list of lines it will deliver; the
end of the list is the zero-length read (device disconnected / EOF). -/

/-- State of a `ReadSensorSerial`: pending device lines,
`self._stop_sampling`, `self._fields` (name and conversion factor per
column) and the `datetime.now().isoformat()` string the next sample would
be stamped with. -/
structure ReadSensorSerial where
  lines : List Str
  stop_sampling : Bool
  fields : List (Str × ℚ)
  now : Str
deriving DecidableEq, Repr

/-- Outcome of the retry loop in `ReadSensorSerial.readsample`. -/
inductive SerialScan where
  | eof (rest : List Str)
  | found (vals : List ℚ) (rest : List Str)
deriving DecidableEq, Repr

/-- The `while try_again` loop: a zero-length read breaks out setting the
stop flag; a line that fails to parse (`ValueError`, caught) or whose field
count differs from the expected column count is discarded and the read
retried; the first well-formed line ends the loop. -/
def serialScan (nf : ℕ) : List Str → SerialScan
  | [] => .eof []
  | l :: rest =>
    match parseFloats (splitWs l) with
    | .error _ => serialScan nf rest
    | .ok vals => if vals.length = nf then .found vals rest else serialScan nf rest

/-- `sample[field_name] = data_acq[i]*factor` for each configured field,
then `sample[TIME_COMPUTER] = datetime.datetime.now().isoformat()`. -/
def buildSerialSample (fields : List (Str × ℚ)) (vals : List ℚ) (now : Str) : Sample :=
  dictSet
    ((fields.zip vals).foldl (fun acc p => dictSet acc p.1.1 (Value.num (p.2 * p.1.2))) [])
    TIME_COMPUTER (Value.str now)

/-- `ReadSensorSerial.readsample`: run the retry loop; afterwards, if the
stop flag is set (now or from before) return the sentinel `None`, else
build the sample from the parsed values, converted by each column's
factor. -/
def ReadSensorSerial.readsample (r : ReadSensorSerial) :
    ReadSensorSerial × Option Sample :=
  match serialScan r.fields.length r.lines with
  | .eof rest => ({ r with lines := rest, stop_sampling := true }, none)
  | .found vals rest =>
    if r.stop_sampling then ({ r with lines := rest }, none)
    else ({ r with lines := rest }, some (buildSerialSample r.fields vals r.now))

/-- `ReadSensorSerial.readsamples`: `num_samples` reads, stopping at the
sentinel and dropping it. -/
def ReadSensorSerial.readsamples (r : ReadSensorSerial) (num_samples : ℕ) :
    ReadSensorSerial × List Sample :=
  match num_samples with
  | 0 => (r, [])
  | n + 1 =>
    match r.readsample with
    | (r', none) => (r', [])
    | (r', some s) =>
      let p := r'.readsamples n
      (p.1, s :: p.2)

/-- `ReadSensorSerial.close` is `self._inputdata.flush()` then `close()`
then `self._stop_sampling = True`: when the port was never opened
`self._inputdata` is `None` and the attribute access raises
`AttributeError`; on success the stop flag is returned (`true`). -/
def serial_close (inputdata : Option (List Str)) : Except PyError Bool :=
  match inputdata with
  | none => .error .attributeError
  | some _ => .ok true

/-! ## `WriteSensorFile` (`io.py` lines 266-309)

The sink is embedded by the list of lines it has written, each without its
trailing newline.  A numeric value is written with Python's `str`,
embedded as an explicit formatting function `fmt : ℚ → Str`. -/

/-- `str(value)` for a sample value. -/
def valStr (fmt : ℚ → Str) : Value → Str
  | .str s => s
  | .num q => fmt q

/-- `"\t".join(tokens)`. -/
def joinTabs : List Str → Str
  | [] => []
  | [t] => t
  | t :: ts => t ++ '\t' :: joinTabs ts

/-- `WriteSensorFile._write_sample`: join `str(sample[item])` over the
configured columns with tabs (`KeyError` when a column is missing). -/
def write_sample (fmt : ℚ → Str) (cols : List Str) (s : Sample) : Except PyError Str :=
  match go cols with
  | .error e => .error e
  | .ok toks => .ok (joinTabs toks)
where
  go : List Str → Except PyError (List Str)
    | [] => .ok []
    | c :: cs =>
      match dictGet s c with
      | .error e => .error e
      | .ok v => (go cs).map (fun ts => valStr fmt v :: ts)

/-- `write` over a list of samples: the lines `_write_sample` emits. -/
def write_samples (fmt : ℚ → Str) (cols : List Str) :
    List Sample → Except PyError (List Str)
  | [] => .ok []
  | s :: ss =>
    match write_sample fmt cols s with
    | .error e => .error e
    | .ok l => (write_samples fmt cols ss).map (fun ls => l :: ls)

/-- The full file produced by `WriteSensorFile` used as a context manager:
`__enter__` writes a `"# <datetime>"` line and a `"#"`-prefixed tab-joined
header of the columns, then `write(samples)` writes one line per sample.
With `filename = None` nothing is written at all. -/
def writeSensorFile (fmt : ℚ → Str) (filename : Option Str) (cols : List Str)
    (dateStr : Str) (samples : List Sample) : Except PyError (List Str) :=
  match filename with
  | none => .ok []
  | some _ =>
    match write_samples fmt cols samples with
    | .error e => .error e
    | .ok body => .ok (('#' :: ' ' :: dateStr) :: ('#' :: joinTabs cols) :: body)

/-! ## `RealTimeAnalysis` (`realtime.py` lines 71-128)

The acquisition loop, instantiated with the replay source (`realtime.py`
line 82 mocks the serial port with a `ReadSensorFile` when the port names
an existing file).  Wall-clock readings of `datetime.datetime.now()` are
supplied as a list of rationals, one per evaluation of `stop_condition`;
`self.window` is embedded by its `stop_sampling` flag when present. -/

/-- The state the loop body and stop condition touch. -/
structure RTState where
  idev : ReadSensorFile
  outfile : Option (List Str)
  out_columns : List Str
  buffers : DataBuffers
  window : Option Bool
  start : ℚ
  tmeas : ℚ
  plot_every_n_samples : ℤ
deriving DecidableEq, Repr

/-- `RealTimeAnalysis.stop_condition`: measured longer than `tmeas`, or the
window exists and reports closed, or the input device stopped reading. -/
def stop_condition (s : RTState) (now : ℚ) : Bool :=
  decide (now - s.start > s.tmeas) ||
    (match s.window with
      | some ws => ws
      | none => false) ||
    s.idev.stop_sampling

/-- `RealTimeAnalysis.loop`: read a batch of samples, write them to the
output file when one is configured, and add them to the buffers (the GUI
update does not change this state). -/
def rt_loop (fmt : ℚ → Str) (s : RTState) : Except PyError RTState :=
  match s.idev.readsamples s.plot_every_n_samples with
  | .error e => .error e
  | .ok (idev', samples) =>
    match s.outfile with
    | none =>
      .ok { s with idev := idev', buffers := s.buffers.extendleft samples }
    | some written =>
      match write_samples fmt s.out_columns samples with
      | .error e => .error e
      | .ok ls =>
        .ok { s with idev := idev', outfile := some (written ++ ls),
                     buffers := s.buffers.extendleft samples }

/-- `RealTimeAnalysis.while_loop`: `while not self.stop_condition():
self.loop()`, consuming one wall-clock reading per condition check and
observed up to the length of the supplied clock. -/
def while_loop (fmt : ℚ → Str) : List ℚ → RTState → Except PyError RTState
  | [], s => .ok s
  | now :: clk, s =>
    if stop_condition s now then .ok s
    else
      match rt_loop fmt s with
      | .error e => .error e
      | .ok s' => while_loop fmt clk s'

/-! ## Buffer lemmas -/

theorem bufGet_bufApply_self (data : List (Str × List Value)) (k : Str)
    (f : List Value → List Value) : bufGet (bufApply data k f) k = f (bufGet data k) := by
  induction data with
  | nil => simp [bufApply, bufGet]
  | cons p rest ih =>
    by_cases h : p.1 = k
    · simp [bufApply, bufGet, h]
    · simp [bufApply, bufGet, h, ih]

theorem bufGet_bufApply_other (data : List (Str × List Value)) (k k' : Str)
    (f : List Value → List Value) (h : k' ≠ k) :
    bufGet (bufApply data k f) k' = bufGet data k' := by
  have h' : ¬ k = k' := fun hh => h hh.symm
  induction data with
  | nil => simp [bufApply, bufGet, h']
  | cons p rest ih =>
    by_cases hp : p.1 = k
    · subst hp
      have hpk : ¬ p.1 = k' := fun hh => h hh.symm
      simp [bufApply, bufGet, hpk]
    · simp [bufApply, bufGet, hp, ih]

theorem bufGet_not_mem {data : List (Str × List Value)} {k : Str}
    (h : k ∉ data.map Prod.fst) : bufGet data k = [] := by
  induction data with
  | nil => simp [bufGet]
  | cons p rest ih =>
    simp only [List.map_cons, List.mem_cons] at h
    push_neg at h
    have hpk : ¬ p.1 = k := fun hh => h.1 hh.symm
    simp only [bufGet, if_neg hpk, ih h.2]

theorem keys_bufApply (data : List (Str × List Value)) (k : Str)
    (f : List Value → List Value) :
    (bufApply data k f).map Prod.fst =
      if k ∈ data.map Prod.fst then data.map Prod.fst else data.map Prod.fst ++ [k] := by
  induction data with
  | nil => simp [bufApply]
  | cons p rest ih =>
    by_cases hp : p.1 = k
    · simp [bufApply, hp]
    · have hkp : ¬ k = p.1 := fun hh => hp hh.symm
      simp only [bufApply, if_neg hp, List.map_cons, ih, List.mem_cons]
      by_cases hm : k ∈ rest.map Prod.fst
      · simp [hm, hkp]
      · simp [hm, hkp]

theorem nodup_keys_bufApply {data : List (Str × List Value)} (k : Str)
    (f : List Value → List Value) (h : (data.map Prod.fst).Nodup) :
    ((bufApply data k f).map Prod.fst).Nodup := by
  rw [keys_bufApply]
  split
  · exact h
  next hm => exact List.Nodup.append h (List.nodup_singleton k) (by simpa using hm)

theorem mem_keys_bufApply (data : List (Str × List Value)) (k k' : Str)
    (f : List Value → List Value) :
    k' ∈ (bufApply data k f).map Prod.fst ↔ k' ∈ data.map Prod.fst ∨ k' = k := by
  rw [keys_bufApply]
  split
  next hm =>
    constructor
    · exact fun h => Or.inl h
    · rintro (h | rfl)
      · exact h
      · exact hm
  · simp

theorem bufGet_bufFold_not_mem (dq : List Value → Value → List Value)
    (data : List (Str × List Value)) (s : Sample) (k : Str)
    (h : k ∉ s.map Prod.fst) : bufGet (bufFold dq data s) k = bufGet data k := by
  induction s generalizing data with
  | nil => simp [bufFold]
  | cons kv rest ih =>
    simp only [List.map_cons, List.mem_cons] at h
    push_neg at h
    show bufGet (bufFold dq (bufApply data kv.1 (fun xs => dq xs kv.2)) rest) k = _
    rw [ih _ h.2, bufGet_bufApply_other _ _ _ _ h.1]

theorem bufGet_bufFold_mem (dq : List Value → Value → List Value)
    (data : List (Str × List Value)) (s : Sample) (k : Str) (v : Value)
    (hnd : (s.map Prod.fst).Nodup) (h : dictLookup s k = some v) :
    bufGet (bufFold dq data s) k = dq (bufGet data k) v := by
  induction s generalizing data with
  | nil => simp [dictLookup] at h
  | cons kv rest ih =>
    simp only [List.map_cons, List.nodup_cons] at hnd
    rw [dictLookup] at h
    show bufGet (bufFold dq (bufApply data kv.1 (fun xs => dq xs kv.2)) rest) k = _
    by_cases hk : kv.1 = k
    · rw [if_pos hk] at h
      subst hk
      rw [bufGet_bufFold_not_mem _ _ _ _ hnd.1, bufGet_bufApply_self]
      simp only [Option.some.injEq] at h
      rw [h]
    · rw [if_neg hk] at h
      rw [ih _ hnd.2 h, bufGet_bufApply_other _ _ _ _ (fun hh => hk hh.symm)]

theorem mem_keys_bufFold (dq : List Value → Value → List Value)
    (data : List (Str × List Value)) (s : Sample) (k : Str) :
    k ∈ (bufFold dq data s).map Prod.fst ↔ k ∈ data.map Prod.fst ∨ k ∈ s.map Prod.fst := by
  induction s generalizing data with
  | nil => simp [bufFold]
  | cons kv rest ih =>
    show k ∈ (bufFold dq (bufApply data kv.1 (fun xs => dq xs kv.2)) rest).map Prod.fst ↔ _
    rw [ih, mem_keys_bufApply]
    simp only [List.map_cons, List.mem_cons]
    tauto

theorem nodup_keys_bufFold (dq : List Value → Value → List Value)
    (data : List (Str × List Value)) (s : Sample)
    (h : (data.map Prod.fst).Nodup) : ((bufFold dq data s).map Prod.fst).Nodup := by
  induction s generalizing data with
  | nil => exact h
  | cons kv rest ih =>
    exact ih _ (nodup_keys_bufApply _ _ h)

theorem mem_entry_bufGet {data : List (Str × List Value)} {p : Str × List Value}
    (hnd : (data.map Prod.fst).Nodup) (h : p ∈ data) : bufGet data p.1 = p.2 := by
  induction data with
  | nil => simp at h
  | cons q rest ih =>
    simp only [List.map_cons, List.nodup_cons] at hnd
    rcases List.mem_cons.mp h with rfl | hm
    · simp [bufGet]
    · have hq : q.1 ≠ p.1 := by
        intro he
        exact hnd.1 (he ▸ List.mem_map_of_mem Prod.fst hm)
      simp only [bufGet, if_neg hq]
      exact ih hnd.2 hm

theorem mem_keys_exists_lookup {s : Sample} {k : Str} (h : k ∈ s.map Prod.fst) :
    ∃ v, dictLookup s k = some v := by
  induction s with
  | nil => simp at h
  | cons kv rest ih =>
    by_cases hk : kv.1 = k
    · exact ⟨kv.2, by simp [dictLookup, hk]⟩
    · simp only [List.map_cons, List.mem_cons] at h
      rcases h with h | h
      · exact absurd h.symm hk
      · simpa [dictLookup, hk] using ih h

/-- The length of a bounded deque after one `append`/`appendleft` on a
deque of current length `c`: one more element, capped at the capacity. -/
def dqLenStep (m : Option ℕ) (c : ℕ) : ℕ :=
  match m with
  | none => c + 1
  | some m => min m (c + 1)

theorem length_lastN {α : Type} (m : ℕ) (l : List α) : (lastN m l).length = min m l.length := by
  simp [lastN]

theorem length_dqAppend (m : Option ℕ) (xs : List Value) (v : Value) :
    (dqAppend m xs v).length = dqLenStep m xs.length := by
  cases m with
  | none => simp [dqAppend, dqLenStep]
  | some m => simp [dqAppend, dqLenStep, length_lastN]

theorem length_dqAppendLeft (m : Option ℕ) (xs : List Value) (v : Value) :
    (dqAppendLeft m xs v).length = dqLenStep m xs.length := by
  cases m with
  | none => simp [dqAppendLeft, dqLenStep]
  | some m => simp [dqAppendLeft, dqLenStep]

theorem take_cons_take {α : Type} (m : ℕ) (v : α) (l : List α) :
    (v :: l.take m).take m = (v :: l).take m := by
  cases m with
  | zero => simp
  | succ n =>
    simp only [List.take_succ_cons, List.take_take]
    rw [min_eq_left (Nat.le_succ n)]

theorem dqAppend_lastN (m : ℕ) (xs : List Value) (v : Value) :
    dqAppend (some m) (lastN m xs) v = lastN m (xs ++ [v]) := by
  simp only [dqAppend, lastN, List.reverse_append, List.reverse_cons, List.reverse_nil,
    List.nil_append, List.singleton_append, List.reverse_reverse]
  rw [take_cons_take]

theorem dqAppendLeft_take (m : ℕ) (xs : List Value) (v : Value) :
    dqAppendLeft (some m) (xs.take m) v = ((v :: xs).take m) := by
  simp only [dqAppendLeft]
  rw [take_cons_take]

/-! ## The lock-step invariant (C2) and the FIFO content theorem (C3) -/

/-- One of the four mutating `DataBuffers` operations. -/
inductive BufOp where
  | app (s : Sample)
  | appL (s : Sample)
  | ext (ss : List Sample)
  | extL (ss : List Sample)

/-- The samples an operation feeds into the buffer. -/
def opSamples : BufOp → List Sample
  | .app s => [s]
  | .appL s => [s]
  | .ext ss => ss
  | .extL ss => ss

/-- Run an operation on the buffer. -/
def applyOp (b : DataBuffers) : BufOp → DataBuffers
  | .app s => b.append s
  | .appL s => b.appendleft s
  | .ext ss => b.extend ss
  | .extL ss => b.extendleft ss

/-- Run a sequence of operations on the buffer. -/
def applyOps (b : DataBuffers) (ops : List BufOp) : DataBuffers :=
  ops.foldl applyOp b

/-- All field sequences in the buffer dictionary have one common length. -/
def LockStep (data : List (Str × List Value)) : Prop :=
  ∀ p ∈ data, ∀ q ∈ data, p.2.length = q.2.length

/-- The reachable-state invariant: the keys are from the uniform key set
`K` (or the buffer is still empty), without duplicates, and all field
sequences have one common length. -/
def BufInv (K : List Str) (data : List (Str × List Value)) : Prop :=
  (data.map Prod.fst).Nodup ∧ (data = [] ∨ (data.map Prod.fst).Perm K) ∧
    ∃ c, ∀ p ∈ data, p.2.length = c

theorem bufInv_lockStep {K : List Str} {data : List (Str × List Value)}
    (h : BufInv K data) : LockStep data := by
  obtain ⟨-, -, c, hc⟩ := h
  intro p hp q hq
  rw [hc p hp, hc q hq]

theorem bufInv_empty (K : List Str) : BufInv K [] :=
  ⟨List.nodup_nil, Or.inl rfl, 0, by simp⟩

theorem bufInv_step {K : List Str} {data : List (Str × List Value)} {s : Sample}
    (m : Option ℕ) (dq : List Value → Value → List Value)
    (hdq : ∀ xs v, (dq xs v).length = dqLenStep m xs.length)
    (hK : K.Nodup) (hs : (s.map Prod.fst).Perm K) (h : BufInv K data) :
    BufInv K (bufFold dq data s) := by
  obtain ⟨hnd, hdom, c, hc⟩ := h
  have hsnd : (s.map Prod.fst).Nodup := hs.nodup_iff.mpr hK
  have hnd' := nodup_keys_bufFold dq data s hnd
  refine ⟨hnd', ?_, ?_⟩
  · right
    rw [List.perm_ext_iff_of_nodup hnd' hK]
    intro a
    rw [mem_keys_bufFold]
    constructor
    · rintro (ha | ha)
      · rcases hdom with rfl | hperm
        · simp at ha
        · exact hperm.mem_iff.mp ha
      · exact hs.mem_iff.mp ha
    · intro ha
      exact Or.inr (hs.mem_iff.mpr ha)
  · refine ⟨dqLenStep m (if data = [] then 0 else c), ?_⟩
    intro p hp
    have hkmem : p.1 ∈ (bufFold dq data s).map Prod.fst := List.mem_map_of_mem Prod.fst hp
    have hks : p.1 ∈ s.map Prod.fst := by
      rcases (mem_keys_bufFold dq data s p.1).mp hkmem with hk | hk
      · rcases hdom with rfl | hperm
        · simp at hk
        · exact hs.mem_iff.mpr (hperm.mem_iff.mp hk)
      · exact hk
    obtain ⟨v, hv⟩ := mem_keys_exists_lookup hks
    have := mem_entry_bufGet hnd' hp
    rw [← this, bufGet_bufFold_mem dq data s p.1 v hsnd hv, hdq]
    congr 1
    by_cases hdata : data = []
    · subst hdata
      simp [bufGet, if_pos]
    · rw [if_neg hdata]
      have hkd : p.1 ∈ data.map Prod.fst := by
        rcases hdom with rfl | hperm
        · exact absurd rfl hdata
        · exact hperm.mem_iff.mpr (hs.mem_iff.mp hks)
      obtain ⟨q, hq, hq1⟩ := List.mem_map.mp hkd
      rw [← hq1, mem_entry_bufGet hnd hq]
      exact hc q hq

theorem bufInv_append {K : List Str} {b : DataBuffers} {s : Sample}
    (hK : K.Nodup) (hs : (s.map Prod.fst).Perm K) (h : BufInv K b.data) :
    BufInv K (b.append s).data :=
  bufInv_step b.maxlen _ (length_dqAppend b.maxlen) hK hs h

theorem bufInv_appendleft {K : List Str} {b : DataBuffers} {s : Sample}
    (hK : K.Nodup) (hs : (s.map Prod.fst).Perm K) (h : BufInv K b.data) :
    BufInv K (b.appendleft s).data :=
  bufInv_step b.maxlen _ (length_dqAppendLeft b.maxlen) hK hs h

theorem maxlen_append (b : DataBuffers) (s : Sample) : (b.append s).maxlen = b.maxlen := rfl

theorem maxlen_appendleft (b : DataBuffers) (s : Sample) :
    (b.appendleft s).maxlen = b.maxlen := rfl

theorem bufInv_extend {K : List Str} {b : DataBuffers} {ss : List Sample}
    (hK : K.Nodup) (hs : ∀ s ∈ ss, (s.map Prod.fst).Perm K) (h : BufInv K b.data) :
    BufInv K (b.extend ss).data := by
  induction ss generalizing b with
  | nil => exact h
  | cons s rest ih =>
    exact ih (fun t ht => hs t (List.mem_cons_of_mem s ht))
      (bufInv_append hK (hs s (List.mem_cons_self s rest)) h)

theorem bufInv_extendleft {K : List Str} {b : DataBuffers} {ss : List Sample}
    (hK : K.Nodup) (hs : ∀ s ∈ ss, (s.map Prod.fst).Perm K) (h : BufInv K b.data) :
    BufInv K (b.extendleft ss).data := by
  induction ss generalizing b with
  | nil => exact h
  | cons s rest ih =>
    exact ih (fun t ht => hs t (List.mem_cons_of_mem s ht))
      (bufInv_appendleft hK (hs s (List.mem_cons_self s rest)) h)

theorem bufInv_applyOps {K : List Str} {b : DataBuffers} {ops : List BufOp}
    (hK : K.Nodup) (hs : ∀ op ∈ ops, ∀ s ∈ opSamples op, (s.map Prod.fst).Perm K)
    (h : BufInv K b.data) : BufInv K (applyOps b ops).data := by
  induction ops generalizing b with
  | nil => exact h
  | cons op rest ih =>
    refine ih (fun o ho => hs o (List.mem_cons_of_mem op ho)) ?_
    have hop := hs op (List.mem_cons_self op rest)
    cases op with
    | app s => exact bufInv_append hK (hop s (by simp [opSamples])) h
    | appL s => exact bufInv_appendleft hK (hop s (by simp [opSamples])) h
    | ext ss => exact bufInv_extend hK (fun t ht => hop t (by simpa [opSamples] using ht)) h
    | extL ss => exact bufInv_extendleft hK (fun t ht => hop t (by simpa [opSamples] using ht)) h

theorem maxlen_extend (b : DataBuffers) (ss : List Sample) :
    (b.extend ss).maxlen = b.maxlen := by
  induction ss generalizing b with
  | nil => rfl
  | cons s rest ih => exact (ih (b.append s)).trans (maxlen_append b s)

theorem maxlen_extendleft (b : DataBuffers) (ss : List Sample) :
    (b.extendleft ss).maxlen = b.maxlen := by
  induction ss generalizing b with
  | nil => rfl
  | cons s rest ih => exact (ih (b.appendleft s)).trans (maxlen_appendleft b s)

/-- The value a sample holds for a field (the fields of interest are always
present; a missing field defaults to `0`). -/
def sampleVal (s : Sample) (k : Str) : Value :=
  (dictLookup s k).getD (Value.num 0)

theorem lastN_map {α β : Type} (f : α → β) (m : ℕ) (l : List α) :
    lastN m (l.map f) = (lastN m l).map f := by
  simp [lastN, List.map_take]

theorem extend_content (m : ℕ) (K : List Str) (samples : List Sample) (hK : K.Nodup)
    (hs : ∀ s ∈ samples, (s.map Prod.fst).Perm K) (k : Str) (hk : k ∈ K) :
    bufGet ((⟨some m, []⟩ : DataBuffers).extend samples).data k
      = lastN m (samples.map (fun s => sampleVal s k)) := by
  induction samples using List.reverseRecOn with
  | nil => simp [DataBuffers.extend, lastN, bufGet]
  | append_singleton ss s ih =>
    have hss : ∀ t ∈ ss, (t.map Prod.fst).Perm K := fun t ht => hs t (by simp [ht])
    have hsK : (s.map Prod.fst).Perm K := hs s (by simp)
    have hnd : (s.map Prod.fst).Nodup := hsK.nodup_iff.mpr hK
    obtain ⟨v, hv⟩ := mem_keys_exists_lookup (hsK.mem_iff.mpr hk)
    have hsv : sampleVal s k = v := by simp [sampleVal, hv]
    have hext : (⟨some m, []⟩ : DataBuffers).extend (ss ++ [s])
        = ((⟨some m, []⟩ : DataBuffers).extend ss).append s := by
      simp [DataBuffers.extend]
    rw [hext]
    show bufGet (bufFold (dqAppend ((⟨some m, []⟩ : DataBuffers).extend ss).maxlen)
      ((⟨some m, []⟩ : DataBuffers).extend ss).data s) k = _
    rw [bufGet_bufFold_mem _ _ _ _ _ hnd hv, ih hss, maxlen_extend]
    show dqAppend (some m) _ _ = _
    rw [dqAppend_lastN, List.map_append]
    simp [hsv]

theorem extendleft_content (m : ℕ) (K : List Str) (samples : List Sample) (hK : K.Nodup)
    (hs : ∀ s ∈ samples, (s.map Prod.fst).Perm K) (k : Str) (hk : k ∈ K) :
    bufGet ((⟨some m, []⟩ : DataBuffers).extendleft samples).data k
      = ((samples.map (fun s => sampleVal s k)).reverse).take m := by
  induction samples using List.reverseRecOn with
  | nil => simp [DataBuffers.extendleft, bufGet]
  | append_singleton ss s ih =>
    have hss : ∀ t ∈ ss, (t.map Prod.fst).Perm K := fun t ht => hs t (by simp [ht])
    have hsK : (s.map Prod.fst).Perm K := hs s (by simp)
    have hnd : (s.map Prod.fst).Nodup := hsK.nodup_iff.mpr hK
    obtain ⟨v, hv⟩ := mem_keys_exists_lookup (hsK.mem_iff.mpr hk)
    have hsv : sampleVal s k = v := by simp [sampleVal, hv]
    have hext : (⟨some m, []⟩ : DataBuffers).extendleft (ss ++ [s])
        = ((⟨some m, []⟩ : DataBuffers).extendleft ss).appendleft s := by
      simp [DataBuffers.extendleft]
    rw [hext]
    show bufGet (bufFold (dqAppendLeft ((⟨some m, []⟩ : DataBuffers).extendleft ss).maxlen)
      ((⟨some m, []⟩ : DataBuffers).extendleft ss).data s) k = _
    rw [bufGet_bufFold_mem _ _ _ _ _ hnd hv, ih hss, maxlen_extendleft]
    show dqAppendLeft (some m) _ _ = _
    rw [dqAppendLeft_take, List.map_append]
    simp [hsv, take_cons_take]

/-! ## Claim theorems C1, C2, C3 -/

/-- C1: `set_maxlen(newMax)` is claimed to retain all values when `newMax`
is at least the content length, to keep the first `newMax` entries per field
otherwise, and to leave the buffer with effective capacity `newMax`.  The
code builds exactly that front-truncated copy in a local variable but never
assigns it to `self.data` and never updates `self.maxlen`, so the method
leaves the instance completely unchanged: on a buffer holding three values
under capacity `None`, `set_maxlen(1)` leaves three values and capacity
`None` (the discarded local rebuild is the claimed `[1]`). -/
theorem C1_set_maxlen_is_noop :
    (∀ (b : DataBuffers) (m : Option ℕ), b.set_maxlen m = b) ∧
    ((⟨none, [(['x'], [.num 1, .num 2, .num 3])]⟩ : DataBuffers).set_maxlen (some 1)).maxlen
        = none ∧
    bufGet ((⟨none, [(['x'], [.num 1, .num 2, .num 3])]⟩ : DataBuffers).set_maxlen
        (some 1)).data ['x'] = [.num 1, .num 2, .num 3] ∧
    (⟨none, [(['x'], [.num 1, .num 2, .num 3])]⟩ : DataBuffers).set_maxlen_local (some 1)
        = [(['x'], [.num 1])] :=
  ⟨fun _ _ => rfl, rfl, rfl, rfl⟩

/-- C2 counterexample: the claim says each `append` extends every field's
sequence by exactly one entry, but on a buffer of capacity 1 already
holding one value a second `append` leaves the field's length at 1, not
2. -/
theorem C2_counterexample :
    (bufGet ((((⟨some 1, []⟩ : DataBuffers).append [(['x'], .num 1)]).append
        [(['x'], .num 2)]).data) ['x']).length ≠
      (bufGet (((⟨some 1, []⟩ : DataBuffers).append [(['x'], .num 1)]).data) ['x']).length
        + 1 := by
  decide

/-- C2 (amended): over any sequence of `append`/`appendleft`/`extend`/
`extendleft` operations whose samples share one key set, all field
sequences keep one common length after every operation; each
`append`/`appendleft` changes a field's length `c` to `c + 1` while below
capacity, and to `min maxlen (c + 1)` in general — at capacity the length
stays `maxlen` rather than growing by one. -/
theorem C2_lockstep_invariant (m : Option ℕ) (K : List Str) (hK : K.Nodup)
    (ops : List BufOp)
    (hops : ∀ op ∈ ops, ∀ s ∈ opSamples op, (s.map Prod.fst).Perm K) :
    LockStep (applyOps ⟨m, []⟩ ops).data ∧
    (∀ (b : DataBuffers) (s : Sample) (k : Str) (v : Value),
      (s.map Prod.fst).Perm K → dictLookup s k = some v →
      (bufGet (b.append s).data k).length = dqLenStep b.maxlen (bufGet b.data k).length ∧
      (bufGet (b.appendleft s).data k).length
        = dqLenStep b.maxlen (bufGet b.data k).length) := by
  constructor
  · exact bufInv_lockStep (bufInv_applyOps hK hops (bufInv_empty K))
  · intro b s k v hs hv
    have hsnd : (s.map Prod.fst).Nodup := hs.nodup_iff.mpr hK
    constructor
    · show (bufGet (bufFold (dqAppend b.maxlen) b.data s) k).length = _
      rw [bufGet_bufFold_mem _ _ _ _ _ hsnd hv, length_dqAppend]
    · show (bufGet (bufFold (dqAppendLeft b.maxlen) b.data s) k).length = _
      rw [bufGet_bufFold_mem _ _ _ _ _ hsnd hv, length_dqAppendLeft]

theorem C2_lockstep_invariant_witness :
    LockStep (applyOps ⟨some 1, []⟩
      [.app [(['x'], .num 1), (['y'], .num 2)], .appL [(['y'], .num 3), (['x'], .num 4)],
       .ext [[(['x'], .num 5), (['y'], .num 6)]]]).data :=
  (C2_lockstep_invariant (some 1) [['x'], ['y']] (by decide)
    [.app [(['x'], .num 1), (['y'], .num 2)], .appL [(['y'], .num 3), (['x'], .num 4)],
     .ext [[(['x'], .num 5), (['y'], .num 6)]]] (by decide)).1

/-- C3: after appending `k` samples over one key set into a buffer of
capacity `maxlen`, every field's sequence has length `min k maxlen`, and
holds exactly the values of the most recent `maxlen` samples — in arrival
order for `append`, and in reverse arrival order for `appendleft`. -/
theorem C3_fifo_window (m : ℕ) (K : List Str) (samples : List Sample) (hK : K.Nodup)
    (hs : ∀ s ∈ samples, (s.map Prod.fst).Perm K) (k : Str) (hk : k ∈ K) :
    (bufGet ((⟨some m, []⟩ : DataBuffers).extend samples).data k).length
        = min samples.length m ∧
    bufGet ((⟨some m, []⟩ : DataBuffers).extend samples).data k
        = (lastN m samples).map (fun s => sampleVal s k) ∧
    bufGet ((⟨some m, []⟩ : DataBuffers).extendleft samples).data k
        = ((lastN m samples).map (fun s => sampleVal s k)).reverse := by
  have hc := extend_content m K samples hK hs k hk
  have hcl := extendleft_content m K samples hK hs k hk
  refine ⟨?_, ?_, ?_⟩
  · rw [hc, length_lastN, List.length_map, Nat.min_comm]
  · rw [hc, lastN_map]
  · rw [hcl, ← lastN_map, lastN, List.reverse_reverse]

theorem C3_fifo_window_witness :
    (bufGet ((⟨some 2, []⟩ : DataBuffers).extend
        [[(['x'], .num 1)], [(['x'], .num 2)], [(['x'], .num 3)]]).data ['x']).length
      = min 3 2 ∧
    bufGet ((⟨some 2, []⟩ : DataBuffers).extend
        [[(['x'], .num 1)], [(['x'], .num 2)], [(['x'], .num 3)]]).data ['x']
      = (lastN 2 [[(['x'], .num 1)], [(['x'], .num 2)], [(['x'], .num 3)]]).map
          (fun s => sampleVal s ['x']) ∧
    bufGet ((⟨some 2, []⟩ : DataBuffers).extendleft
        [[(['x'], .num 1)], [(['x'], .num 2)], [(['x'], .num 3)]]).data ['x']
      = ((lastN 2 [[(['x'], .num 1)], [(['x'], .num 2)], [(['x'], .num 3)]]).map
          (fun s => sampleVal s ['x'])).reverse :=
  C3_fifo_window 2 [['x']] [[(['x'], .num 1)], [(['x'], .num 2)], [(['x'], .num 3)]]
    (by decide) (by decide) ['x'] (by decide)

/-! ## Reader lemmas -/

theorem file_readsample_cases (r r' : ReadSensorFile) (x : Option Sample)
    (h : r.readsample = .ok (r', x)) :
    (x = none ∧ r' = { r with lines := [], stop_sampling := true }) ∨
      (∃ l rest s, skipHash r.lines = some (l, rest) ∧ x = some s ∧
        r' = { r with lines := rest }) := by
  rw [ReadSensorFile.readsample] at h
  split at h
  · left
    simp only [Except.ok.injEq, Prod.mk.injEq] at h
    exact ⟨h.2.symm, h.1.symm⟩
  next l rest hs =>
    split at h
    · simp at h
    next f0 fs hsp =>
      split at h
      · simp at h
      next vals hp =>
        split at h
        · simp at h
        next sample hb =>
          simp only [Except.ok.injEq, Prod.mk.injEq] at h
          exact Or.inr ⟨l, rest, sample, hs, h.2.symm, h.1.symm⟩

theorem file_readsample_eof (cols : List Str) (b : Bool) :
    ReadSensorFile.readsample ⟨[], b, cols⟩ = .ok (⟨[], true, cols⟩, none) := by
  rw [ReadSensorFile.readsample]
  rfl

theorem file_readsamples_eof (cols : List Str) (n : ℤ) :
    ReadSensorFile.readsamples ⟨[], true, cols⟩ n = .ok (⟨[], true, cols⟩, []) := by
  rw [ReadSensorFile.readsamples]
  by_cases hn : n = 0
  · rw [if_pos hn]
  · rw [if_neg hn]
    split
    next e he => rw [file_readsample_eof] at he; simp at he
    next r' he =>
      rw [file_readsample_eof] at he
      simp only [Except.ok.injEq, Prod.mk.injEq, and_true] at he
      subst he
      rfl
    next r' s he => rw [file_readsample_eof] at he; simp at he

theorem serial_readsample_stop (r : ReadSensorSerial) (h : r.stop_sampling = true) :
    r.readsample.1.stop_sampling = true ∧ r.readsample.2 = none := by
  rw [ReadSensorSerial.readsample]
  cases hscan : serialScan r.fields.length r.lines with
  | eof rest => exact ⟨rfl, rfl⟩
  | found vals rest => exact ⟨by simp [h], by simp [h]⟩

theorem serial_readsamples_stop (r : ReadSensorSerial) (n : ℕ) (h : r.stop_sampling = true) :
    (r.readsamples n).1.stop_sampling = true ∧ (r.readsamples n).2 = [] := by
  cases n with
  | zero => exact ⟨h, rfl⟩
  | succ n =>
    obtain ⟨h1, h2⟩ := serial_readsample_stop r h
    have hp : r.readsample = (r.readsample.1, none) := by
      rw [← h2]
    rw [ReadSensorSerial.readsamples, hp]
    exact ⟨h1, rfl⟩

/-- Apostrophe-free skipping of an all-comment block. -/
theorem skipHash_comments (pre ls : List Str)
    (h : ∀ p ∈ pre, (p ++ ['\n']).head? = some '#') :
    skipHash (pre ++ ls) = skipHash ls := by
  induction pre with
  | nil => rfl
  | cons p rest ih =>
    rw [List.cons_append, skipHash, if_pos (h p (List.mem_cons_self p rest))]
    exact ih (fun q hq => h q (List.mem_cons_of_mem p hq))

theorem parseFloats_error {fs : List Str} (h : ∃ t ∈ fs, parseFloat t = none) :
    parseFloats fs = .error .valueError := by
  induction fs with
  | nil => simp at h
  | cons t rest ih =>
    rw [parseFloats]
    rcases hp : parseFloat t with _ | q
    · rfl
    · obtain ⟨u, hu, hun⟩ := h
      rcases List.mem_cons.mp hu with rfl | hur
      · rw [hp] at hun; exact absurd hun (by simp)
      · rw [ih ⟨u, hur, hun⟩]; rfl

theorem splitWs_all_ws (s : Str) (h : ∀ c ∈ s, isWs c = true) : splitWs s = [] := by
  show splitWsAux s [] = []
  induction s with
  | nil => rfl
  | cons c cs ih =>
    rw [splitWsAux, if_pos (h c (by simp))]
    exact if_pos rfl ▸ ih (fun d hd => h d (by simp [hd]))

theorem isWs_ne_hash {c : Char} (h : isWs c = true) : c ≠ '#' := by
  intro hc
  subst hc
  simp [isWs] at h

/-! ## Claim theorems C5, C6, C10 -/

/-- C5: exhaustion is terminal across read calls.  For the replay source:
`readsample` never clears the flag, the invariant "flag set implies the
file is consumed" is preserved, and in the exhausted state `readsample`
returns the sentinel and `readsamples` the empty batch with the flag still
set.  For the live source: with the flag set, `readsample` returns the
sentinel with the flag still set (even when a well-formed line arrives),
and `readsamples` returns the empty batch. -/
theorem C5_exhaustion_terminal :
    (∀ (r r' : ReadSensorFile) (x : Option Sample), r.readsample = .ok (r', x) →
        r.stop_sampling = true → r'.stop_sampling = true) ∧
    (∀ (r r' : ReadSensorFile) (x : Option Sample), r.readsample = .ok (r', x) →
        (r.stop_sampling = true → r.lines = []) →
        (r'.stop_sampling = true → r'.lines = [])) ∧
    (∀ (cols : List Str) (n : ℤ),
        ReadSensorFile.readsample ⟨[], true, cols⟩ = .ok (⟨[], true, cols⟩, none) ∧
        ReadSensorFile.readsamples ⟨[], true, cols⟩ n = .ok (⟨[], true, cols⟩, [])) ∧
    (∀ r : ReadSensorSerial, r.stop_sampling = true →
        r.readsample.1.stop_sampling = true ∧ r.readsample.2 = none) ∧
    (∀ (r : ReadSensorSerial) (n : ℕ), r.stop_sampling = true →
        (r.readsamples n).1.stop_sampling = true ∧ (r.readsamples n).2 = []) := by
  refine ⟨?_, ?_, ?_, serial_readsample_stop, serial_readsamples_stop⟩
  · intro r r' x h hstop
    rcases file_readsample_cases r r' x h with ⟨-, rfl⟩ | ⟨l, rest, s, -, -, rfl⟩
    · rfl
    · exact hstop
  · intro r r' x h hinv hstop
    rcases file_readsample_cases r r' x h with ⟨-, rfl⟩ | ⟨l, rest, s, hscan, -, rfl⟩
    · rfl
    · rw [hinv hstop] at hscan
      simp [skipHash] at hscan
  · exact fun cols n => ⟨file_readsample_eof cols true, file_readsamples_eof cols n⟩

theorem C5_exhaustion_terminal_witness :
    ReadSensorFile.readsamples ⟨[], true, [['t']]⟩ (-1) = .ok (⟨[], true, [['t']]⟩, []) ∧
    (ReadSensorSerial.readsample ⟨[['1']], true, [(['a'], 1)], ['T']⟩).2 = none :=
  ⟨(C5_exhaustion_terminal.2.2.1 [['t']] (-1)).2,
    (C5_exhaustion_terminal.2.2.2.1 ⟨[['1']], true, [(['a'], 1)], ['T']⟩ (by decide)).2⟩

/-- C6: for the replay source, a non-comment line with a malformed numeric
token after the first makes `readsample` raise `ValueError`, which
propagates (no retry, no sample); end of file instead raises nothing: the
exhausted flag is set, the sentinel is returned, and every later
`readsample` returns the sentinel again. -/
theorem C6_file_parse_error_vs_eof :
    (∀ (cols : List Str) (b : Bool) (pre : List Str) (l : Str) (rest : List Str)
        (f0 : Str) (fs : List Str),
      (∀ p ∈ pre, (p ++ ['\n']).head? = some '#') →
      (l ++ ['\n']).head? ≠ some '#' →
      splitWs (l ++ ['\n']) = f0 :: fs →
      (∃ t ∈ fs, parseFloat t = none) →
      ReadSensorFile.readsample ⟨pre ++ l :: rest, b, cols⟩ = .error .valueError) ∧
    (∀ (cols : List Str) (b : Bool),
      ReadSensorFile.readsample ⟨[], b, cols⟩ = .ok (⟨[], true, cols⟩, none)) := by
  constructor
  · intro cols b pre l rest f0 fs hpre hl hsp hbad
    rw [ReadSensorFile.readsample]
    have hscan : skipHash (pre ++ l :: rest) = some (l, rest) := by
      rw [skipHash_comments pre _ hpre, skipHash, if_neg hl]
    simp only [hscan, hsp, parseFloats_error hbad]
  · exact file_readsample_eof

theorem C6_file_parse_error_vs_eof_witness :
    ReadSensorFile.readsample
        ⟨[['#', 'h'], ['t', '1', ' ', 'a', 'b', 'c'], ['t', '2', ' ', '3']], false,
          [['t'], ['v']]⟩ = .error .valueError :=
  C6_file_parse_error_vs_eof.1 [['t'], ['v']] false [['#', 'h']]
    ['t', '1', ' ', 'a', 'b', 'c'] [['t', '2', ' ', '3']] ['t', '1'] [['a', 'b', 'c']]
    (by decide) (by decide) (by decide) ⟨['a', 'b', 'c'], by decide, by decide⟩

/-- C10: a blank or whitespace-only line (not starting with the comment
mark and containing no tokens) makes the replay source's `readsample` raise
`IndexError` — it is neither skipped nor turned into a sample or sentinel;
only a line whose first character is the comment mark is skipped, and only
the zero-length read at end of file marks exhaustion. -/
theorem C10_blank_line_index_error :
    (∀ (cols : List Str) (b : Bool) (l : Str) (rest : List Str),
      (∀ c ∈ l, isWs c = true) →
      ReadSensorFile.readsample ⟨l :: rest, b, cols⟩ = .error .indexError) ∧
    (∀ (cols : List Str) (b : Bool) (l : Str) (rest : List Str),
      (l ++ ['\n']).head? = some '#' →
      ReadSensorFile.readsample ⟨l :: rest, b, cols⟩
        = ReadSensorFile.readsample ⟨rest, b, cols⟩) ∧
    (∀ (cols : List Str) (b : Bool),
      ReadSensorFile.readsample ⟨[], b, cols⟩ = .ok (⟨[], true, cols⟩, none)) := by
  refine ⟨?_, ?_, file_readsample_eof⟩
  · intro cols b l rest hws
    have hhead : (l ++ ['\n']).head? ≠ some '#' := by
      cases l with
      | nil => simp
      | cons c cs =>
        intro hc
        simp only [List.cons_append, List.head?_cons, Option.some.injEq] at hc
        exact isWs_ne_hash (hws c (by simp)) hc
    have hsp : splitWs (l ++ ['\n']) = [] := by
      refine splitWs_all_ws _ (fun c hc => ?_)
      rcases List.mem_append.mp hc with hcl | hcn
      · exact hws c hcl
      · simp only [List.mem_singleton] at hcn
        subst hcn
        rfl
    rw [ReadSensorFile.readsample]
    have hscan : skipHash (l :: rest) = some (l, rest) := by
      rw [skipHash, if_neg hhead]
    simp only [hscan, hsp]
  · intro cols b l rest hl
    rw [ReadSensorFile.readsample, ReadSensorFile.readsample]
    have hscan : skipHash (l :: rest) = skipHash rest := by
      rw [skipHash, if_pos hl]
    rw [hscan]

theorem C10_blank_line_index_error_witness :
    ReadSensorFile.readsample ⟨[[' ', '\t'], ['t', ' ', '1']], false, [['t'], ['v']]⟩
      = .error .indexError :=
  C10_blank_line_index_error.1 [['t'], ['v']] false [' ', '\t'] [['t', ' ', '1']]
    (by decide)

/-! ## Serial retry lemmas (C7) -/

/-- A device line is well-formed when it parses as floats and has exactly
the expected number of fields. -/
def lineOk (nf : ℕ) (l : Str) : Bool :=
  match parseFloats (splitWs l) with
  | .ok vals => decide (vals.length = nf)
  | .error _ => false

theorem serialScan_all_bad (nf : ℕ) (lines : List Str)
    (h : ∀ l ∈ lines, lineOk nf l = false) : serialScan nf lines = .eof [] := by
  induction lines with
  | nil => rfl
  | cons l rest ih =>
    have hrest := ih (fun t ht => h t (List.mem_cons_of_mem l ht))
    have hl := h l (List.mem_cons_self l rest)
    rw [serialScan]
    rcases hp : parseFloats (splitWs l) with e | vals
    · exact hrest
    · rw [lineOk, hp] at hl
      simp only [decide_eq_false_iff_not] at hl
      show (if vals.length = nf then SerialScan.found vals rest else serialScan nf rest) = _
      rw [if_neg hl]
      exact hrest

theorem serialScan_found (nf : ℕ) (bad : List Str) (good : Str) (rest : List Str)
    (vals : List ℚ) (hbad : ∀ l ∈ bad, lineOk nf l = false)
    (hok : parseFloats (splitWs good) = .ok vals) (hlen : vals.length = nf) :
    serialScan nf (bad ++ good :: rest) = .found vals rest := by
  induction bad with
  | nil =>
    rw [List.nil_append, serialScan, hok]
    show (if vals.length = nf then SerialScan.found vals rest else serialScan nf rest) = _
    rw [if_pos hlen]
  | cons b brest ih =>
    have hrest := ih (fun t ht => hbad t (List.mem_cons_of_mem b ht))
    have hb := hbad b (List.mem_cons_self b brest)
    rw [List.cons_append, serialScan]
    rcases hp : parseFloats (splitWs b) with e | bvals
    · exact hrest
    · rw [lineOk, hp] at hb
      simp only [decide_eq_false_iff_not] at hb
      show (if bvals.length = nf then SerialScan.found bvals (brest ++ good :: rest)
        else serialScan nf (brest ++ good :: rest)) = _
      rw [if_neg hb]
      exact hrest

theorem dictLookup_dictSet_self (d : Sample) (k : Str) (v : Value) :
    dictLookup (dictSet d k v) k = some v := by
  induction d with
  | nil => simp [dictSet, dictLookup]
  | cons p rest ih =>
    by_cases hp : p.1 = k
    · simp [dictSet, dictLookup, hp]
    · simp [dictSet, dictLookup, hp, ih]

theorem dictLookup_dictSet_other (d : Sample) (k k' : Str) (v : Value) (h : k' ≠ k) :
    dictLookup (dictSet d k v) k' = dictLookup d k' := by
  have h' : ¬ k = k' := fun hh => h hh.symm
  induction d with
  | nil => simp [dictSet, dictLookup, h']
  | cons p rest ih =>
    by_cases hp : p.1 = k
    · subst hp
      have hpk : ¬ p.1 = k' := fun hh => h hh.symm
      simp [dictSet, dictLookup, hpk]
    · simp [dictSet, dictLookup, hp, ih]

theorem lookup_foldl_dictSet_not_mem (ps : List (Str × Value)) (d : Sample) (k : Str)
    (hk : k ∉ ps.map Prod.fst) :
    dictLookup (ps.foldl (fun a p => dictSet a p.1 p.2) d) k = dictLookup d k := by
  induction ps generalizing d with
  | nil => rfl
  | cons p rest ih =>
    simp only [List.map_cons, List.mem_cons] at hk
    push_neg at hk
    rw [List.foldl_cons, ih _ hk.2, dictLookup_dictSet_other _ _ _ _ hk.1]

theorem lookup_foldl_dictSet_mem (ps : List (Str × Value)) (d : Sample) {k : Str}
    {v : Value} (hnd : (ps.map Prod.fst).Nodup) (h : (k, v) ∈ ps) :
    dictLookup (ps.foldl (fun a p => dictSet a p.1 p.2) d) k = some v := by
  induction ps generalizing d with
  | nil => simp at h
  | cons p rest ih =>
    simp only [List.map_cons, List.nodup_cons] at hnd
    rcases List.mem_cons.mp h with rfl | hm
    · rw [List.foldl_cons, lookup_foldl_dictSet_not_mem _ _ _ hnd.1]
      exact dictLookup_dictSet_self d k v
    · rw [List.foldl_cons]
      exact ih _ hnd.2 hm

/-! ## Claim theorem C7 -/

/-- C7: the live source never hands the caller a sample from a line that
failed to parse or had the wrong field count: such lines are consumed
silently and the read retried; with the stop flag clear, the first
well-formed line is returned as the sample whose value for each configured
column is the parsed token times that column's conversion factor (plus the
time stamp); and when no well-formed line ever arrives the loop consumes
the whole stream and returns the sentinel, never an error. -/
theorem C7_serial_discard_retry (r : ReadSensorSerial) (bad : List Str) (good : Str)
    (rest : List Str) (vals : List ℚ)
    (hlines : r.lines = bad ++ good :: rest)
    (hbad : ∀ l ∈ bad, lineOk r.fields.length l = false)
    (hok : parseFloats (splitWs good) = .ok vals)
    (hlen : vals.length = r.fields.length)
    (hstop : r.stop_sampling = false) :
    r.readsample = ({ r with lines := rest }, some (buildSerialSample r.fields vals r.now)) ∧
    ((r.fields.map Prod.fst).Nodup → TIME_COMPUTER ∉ r.fields.map Prod.fst →
      ∀ p ∈ r.fields.zip vals,
        dictLookup (buildSerialSample r.fields vals r.now) p.1.1
          = some (.num (p.2 * p.1.2))) ∧
    (∀ r₂ : ReadSensorSerial, (∀ l ∈ r₂.lines, lineOk r₂.fields.length l = false) →
      r₂.readsample = ({ r₂ with lines := [], stop_sampling := true }, none)) := by
  refine ⟨?_, ?_, ?_⟩
  · rw [ReadSensorSerial.readsample, hlines,
      serialScan_found _ _ _ _ _ hbad hok hlen]
    simp [hstop]
  · intro hnd hT p hp
    have hkeys : ((r.fields.zip vals).map (fun q => (q.1.1, Value.num (q.2 * q.1.2)))).map
        Prod.fst = r.fields.map Prod.fst := by
      rw [List.map_map]
      show (r.fields.zip vals).map (Prod.fst ∘ Prod.fst) = _
      rw [← List.map_map, List.map_fst_zip _ _ (le_of_eq hlen.symm)]
    have hfold : (r.fields.zip vals).foldl
        (fun acc q => dictSet acc q.1.1 (Value.num (q.2 * q.1.2))) []
        = ((r.fields.zip vals).map (fun q => (q.1.1, Value.num (q.2 * q.1.2)))).foldl
            (fun a q => dictSet a q.1 q.2) [] := by
      rw [List.foldl_map]
    have hkmem : p.1.1 ∈ r.fields.map Prod.fst := by
      rw [← hkeys]
      exact List.mem_map_of_mem Prod.fst
        (List.mem_map_of_mem (fun q => (q.1.1, Value.num (q.2 * q.1.2))) hp)
    have hne : p.1.1 ≠ TIME_COMPUTER := by
      intro he
      exact hT (he ▸ hkmem)
    rw [buildSerialSample, dictLookup_dictSet_other _ _ _ _ hne, hfold]
    exact lookup_foldl_dictSet_mem _ _ (hkeys ▸ hnd)
      (List.mem_map_of_mem (fun q => (q.1.1, Value.num (q.2 * q.1.2))) hp)
  · intro r₂ hall
    rw [ReadSensorSerial.readsample, serialScan_all_bad _ _ hall]

theorem C7_serial_discard_retry_witness :
    ReadSensorSerial.readsample
        ⟨[['x'], ['1', ' ', '2', ' ', '3'], ['4', ' ', '5']], false,
          [(['a'], 2), (['b'], 3)], ['T']⟩
      = (⟨[], false, [(['a'], 2), (['b'], 3)], ['T']⟩,
          some (buildSerialSample [(['a'], 2), (['b'], 3)] [4, 5] ['T'])) ∧
    dictLookup (buildSerialSample [(['a'], 2), (['b'], 3)] [4, 5] ['T']) ['a']
      = some (.num 8) := by
  have h := C7_serial_discard_retry
    ⟨[['x'], ['1', ' ', '2', ' ', '3'], ['4', ' ', '5']], false,
      [(['a'], 2), (['b'], 3)], ['T']⟩
    [['x'], ['1', ' ', '2', ' ', '3']] ['4', ' ', '5'] [] [4, 5]
    (by decide) (by decide) (by decide) (by decide) (by decide)
  refine ⟨h.1, ?_⟩
  have hv := h.2.1 (by decide) (by decide) (('a'::[], (2 : ℚ)), (4 : ℚ)) (by decide)
  norm_num at hv
  exact hv

/-! ## Claim theorems C8, C9 -/

/-- C8 counterexample: for the replay source constructed with filename
`None`, `open` acquires no file handle, and the subsequent `close()` does
not succeed — `self._file.close()` on the `None` handle raises
`AttributeError`; likewise for the live source after a failed `open`. -/
theorem C8_counterexample :
    file_close (file_open none [['a']]) = .error .attributeError ∧
    serial_close none = .error .attributeError :=
  ⟨rfl, rfl⟩

/-- C8 (amended): `close()` succeeds after a successful open (for the live
source also setting the stop flag), but after a failed or partial open that
acquired no handle — including `ReadSensorFile` with filename `None` — it
raises `AttributeError`, because the handle attribute is still `None`. -/
theorem C8_close_after_failed_open :
    (∀ (fn : Str) (contents : List Str),
      file_open (some fn) contents = some contents ∧
      file_close (file_open (some fn) contents) = .ok ()) ∧
    (∀ contents : List Str,
      file_open none contents = none ∧
      file_close (file_open none contents) = .error .attributeError) ∧
    (∀ dev : List Str, serial_close (some dev) = .ok true) ∧
    serial_close none = .error .attributeError :=
  ⟨fun _ _ => ⟨rfl, rfl⟩, fun _ => ⟨rfl, rfl⟩, fun _ => rfl, rfl⟩

/-- C9: the acquisition loop's stop condition holds exactly when the
elapsed wall-clock time exceeds the duration ceiling, or the viewer window
is present and reports closed, or the source's exhausted flag is set; and
within one iteration every pulled sample is written to the sink (when one
is configured) and pushed into the buffers before the stop condition is
consulted again, so no pulled sample is discarded on exit. -/
theorem C9_stop_condition_no_loss (fmt : ℚ → Str) (s s' : RTState) (now : ℚ)
    (clk : List ℚ) (h : rt_loop fmt s = .ok s') :
    (stop_condition s now = true ↔
      (now - s.start > s.tmeas ∨ s.window = some true ∨ s.idev.stop_sampling = true)) ∧
    (∃ idev' samples, s.idev.readsamples s.plot_every_n_samples = .ok (idev', samples) ∧
      s'.buffers = s.buffers.extendleft samples ∧
      s'.idev = idev' ∧
      (s.outfile = none → s'.outfile = none) ∧
      (∀ w, s.outfile = some w →
        ∃ ls, write_samples fmt s.out_columns samples = .ok ls ∧
          s'.outfile = some (w ++ ls))) ∧
    (while_loop fmt (now :: clk) s
      = if stop_condition s now then .ok s
        else
          match rt_loop fmt s with
          | .error e => .error e
          | .ok s₂ => while_loop fmt clk s₂) := by
  refine ⟨?_, ?_, rfl⟩
  · cases hw : s.window with
    | none => simp [stop_condition, hw]
    | some ws => cases ws <;> simp [stop_condition, hw]
  · rw [rt_loop] at h
    split at h
    · simp at h
    next idev' samples hread =>
      split at h
      next hout =>
        simp only [Except.ok.injEq] at h
        refine ⟨idev', samples, hread, ?_, ?_, ?_, ?_⟩
        · rw [← h]
        · rw [← h]
        · intro _
          rw [← h]
          exact hout
        · intro w hw
          rw [hout] at hw
          simp at hw
      next w hout =>
        split at h
        · simp at h
        next ls hwrite =>
          simp only [Except.ok.injEq] at h
          refine ⟨idev', samples, hread, ?_, ?_, ?_, ?_⟩
          · rw [← h]
          · rw [← h]
          · intro hnone
            rw [hout] at hnone
            simp at hnone
          · intro w' hw'
            rw [hout] at hw'
            simp only [Option.some.injEq] at hw'
            subst hw'
            exact ⟨ls, hwrite, by rw [← h]⟩

theorem C9_stop_condition_no_loss_witness :
    (let S : RTState := ⟨⟨[['d']], false, [['t']]⟩, none, [['t']], ⟨none, []⟩, none, 0, 10, 0⟩
     stop_condition S 20 = true ↔
       ((20 : ℚ) - S.start > S.tmeas ∨ S.window = some true ∨
         S.idev.stop_sampling = true)) :=
  (C9_stop_condition_no_loss (fun _ => ['0'])
    ⟨⟨[['d']], false, [['t']]⟩, none, [['t']], ⟨none, []⟩, none, 0, 10, 0⟩
    ⟨⟨[['d']], false, [['t']]⟩, none, [['t']], ⟨none, []⟩, none, 0, 10, 0⟩ 20 []
    (by rw [rt_loop, ReadSensorFile.readsamples]
        simp [DataBuffers.extendleft])).1

/-! ## Round-trip lemmas (C4) -/

theorem splitWsAux_token (t r acc : Str) (hws : ∀ c ∈ t, isWs c = false) :
    splitWsAux (t ++ r) acc = splitWsAux r (t.reverse ++ acc) := by
  induction t generalizing acc with
  | nil => simp
  | cons c t' ih =>
    rw [List.cons_append, splitWsAux, if_neg (by simp [hws c (by simp)])]
    rw [ih _ (fun d hd => hws d (by simp [hd]))]
    simp

theorem splitWs_ws_cons (w : Char) (hw : isWs w = true) (r : Str) :
    splitWs (w :: r) = splitWs r := by
  show splitWsAux (w :: r) [] = splitWsAux r []
  rw [splitWsAux, if_pos hw, if_pos rfl]

theorem splitWs_token_cons (t r : Str) (ht : t ≠ []) (hws : ∀ c ∈ t, isWs c = false)
    (hr : r = [] ∨ ∃ w r₂, r = w :: r₂ ∧ isWs w = true) :
    splitWs (t ++ r) = t :: splitWs r := by
  show splitWsAux (t ++ r) [] = _
  rw [splitWsAux_token t r [] hws]
  have htr : ¬ t.reverse ++ [] = [] := by simpa using ht
  rcases hr with rfl | ⟨w, r₂, rfl, hw⟩
  · show splitWsAux [] (t.reverse ++ []) = _
    rw [splitWsAux, if_neg htr]
    simp [splitWs, splitWsAux]
  · show splitWsAux (w :: r₂) (t.reverse ++ []) = _
    rw [splitWsAux, if_pos hw, if_neg htr, splitWs_ws_cons w hw r₂]
    simp [splitWs]

theorem splitWs_joinTabs (toks : List Str)
    (h : ∀ t ∈ toks, t ≠ [] ∧ ∀ c ∈ t, isWs c = false) :
    splitWs (joinTabs toks ++ ['\n']) = toks := by
  induction toks with
  | nil =>
    rw [joinTabs, List.nil_append]
    exact splitWs_all_ws ['\n'] (by decide)
  | cons t ts ih =>
    obtain ⟨ht, hws⟩ := h t (by simp)
    cases ts with
    | nil =>
      rw [joinTabs]
      rw [splitWs_token_cons t ['\n'] ht hws (Or.inr ⟨'\n', [], rfl, rfl⟩)]
      rw [splitWs_ws_cons '\n' rfl []]
      rfl
    | cons t2 ts2 =>
      have hj : joinTabs (t :: t2 :: ts2) ++ ['\n']
          = t ++ ('\t' :: (joinTabs (t2 :: ts2) ++ ['\n'])) := by
        show (t ++ '\t' :: joinTabs (t2 :: ts2)) ++ ['\n'] = _
        simp
      rw [hj, splitWs_token_cons t _ ht hws
        (Or.inr ⟨'\t', joinTabs (t2 :: ts2) ++ ['\n'], rfl, rfl⟩)]
      rw [splitWs_ws_cons '\t' rfl]
      rw [ih (fun u hu => h u (by simp [hu]))]

theorem head_joinTabs (t : Str) (ts : List Str) (ht : t ≠ []) :
    (joinTabs (t :: ts) ++ ['\n']).head? = t.head? := by
  cases t with
  | nil => exact absurd rfl ht
  | cons c cr =>
    cases ts with
    | nil => rfl
    | cons t2 ts2 =>
      rw [joinTabs]
      · simp
      · simp

theorem parseFloats_map (cs : List Str) (tokf : Str → Str) (qf : Str → ℚ)
    (h : ∀ c ∈ cs, parseFloat (tokf c) = some (qf c)) :
    parseFloats (cs.map tokf) = .ok (cs.map qf) := by
  induction cs with
  | nil => rfl
  | cons c rest ih =>
    rw [List.map_cons, parseFloats, h c (by simp),
      ih (fun d hd => h d (by simp [hd]))]
    rfl

theorem map_eq_of_mem {α β : Type} (l : List α) (f g : α → β) (h : ∀ a ∈ l, f a = g a) :
    l.map f = l.map g := by
  induction l with
  | nil => rfl
  | cons a rest ih =>
    rw [List.map_cons, List.map_cons, h a (by simp), ih (fun b hb => h b (by simp [hb]))]

theorem zip_map_self {α β : Type} (l : List α) (f : α → β) :
    l.zip (l.map f) = l.map (fun a => (a, f a)) := by
  induction l with
  | nil => rfl
  | cons a rest ih => simp [ih]

theorem dictSet_append (d : Sample) (k : Str) (v : Value) (h : k ∉ d.map Prod.fst) :
    dictSet d k v = d ++ [(k, v)] := by
  induction d with
  | nil => rfl
  | cons p rest ih =>
    simp only [List.map_cons, List.mem_cons] at h
    push_neg at h
    have hpk : ¬ p.1 = k := fun hh => h.1 hh.symm
    rw [dictSet, if_neg hpk, ih h.2]
    rfl

theorem foldl_dictSet_eq (ps : List (Str × Value)) (acc : Sample)
    (hnd : (ps.map Prod.fst).Nodup)
    (hdisj : ∀ k ∈ ps.map Prod.fst, k ∉ acc.map Prod.fst) :
    ps.foldl (fun a p => dictSet a p.1 p.2) acc = acc ++ ps := by
  induction ps generalizing acc with
  | nil => simp
  | cons p rest ih =>
    simp only [List.map_cons, List.nodup_cons] at hnd
    rw [List.foldl_cons,
      dictSet_append _ _ _ (hdisj p.1 (List.mem_cons_self p.1 (rest.map Prod.fst)))]
    rw [ih (acc ++ [(p.1, p.2)]) hnd.2]
    · simp
    · intro k hk
      simp only [List.map_append, List.mem_append, List.map_cons]
      push_neg
      refine ⟨fun hka => hdisj k (by simp [hk]) hka, ?_⟩
      simp only [List.map_nil, List.mem_singleton]
      intro hkp
      exact hnd.1 (hkp ▸ hk)

theorem buildSample_go (cols : List Str) (vals : List Value) (acc : Sample)
    (hlen : cols.length ≤ vals.length) :
    buildSample.go acc cols vals
      = .ok ((cols.zip vals).foldl (fun a p => dictSet a p.1 p.2) acc) := by
  induction cols generalizing vals acc with
  | nil => simp [buildSample.go]
  | cons c cs ih =>
    cases vals with
    | nil => simp at hlen
    | cons v vs =>
      rw [buildSample.go, List.zip_cons_cons, List.foldl_cons]
      exact ih vs (dictSet acc c v) (by simpa using hlen)

theorem buildSample_eq_zip (cols : List Str) (vals : List Value) (hnd : cols.Nodup)
    (hlen : cols.length ≤ vals.length) :
    buildSample cols vals = .ok (cols.zip vals) := by
  rw [buildSample, buildSample_go cols vals [] hlen]
  rw [foldl_dictSet_eq _ _ (by rw [List.map_fst_zip _ _ hlen]; exact hnd)
    (by intro k hk; rw [List.map_nil]; exact List.not_mem_nil k)]
  rfl

theorem write_sample_go (fmt : ℚ → Str) (s : Sample) (cols : List Str)
    (h : ∀ c ∈ cols, ∃ v, dictLookup s c = some v) :
    write_sample.go fmt s cols = .ok (cols.map (fun c => valStr fmt (sampleVal s c))) := by
  induction cols with
  | nil => rfl
  | cons c cs ih =>
    obtain ⟨v, hv⟩ := h c (by simp)
    rw [write_sample.go, dictGet, hv]
    show Except.map _ (write_sample.go fmt s cs) = _
    rw [ih (fun d hd => h d (by simp [hd]))]
    simp [Except.map, sampleVal, hv]

theorem write_sample_ok (fmt : ℚ → Str) (cols : List Str) (s : Sample)
    (h : ∀ c ∈ cols, ∃ v, dictLookup s c = some v) :
    write_sample fmt cols s
      = .ok (joinTabs (cols.map (fun c => valStr fmt (sampleVal s c)))) := by
  rw [write_sample, write_sample_go fmt s cols h]

theorem write_samples_ok (fmt : ℚ → Str) (cols : List Str) (samples : List Sample)
    (h : ∀ s ∈ samples, ∀ c ∈ cols, ∃ v, dictLookup s c = some v) :
    write_samples fmt cols samples
      = .ok (samples.map (fun s =>
          joinTabs (cols.map (fun c => valStr fmt (sampleVal s c))))) := by
  induction samples with
  | nil => rfl
  | cons s ss ih =>
    rw [write_samples, write_sample_ok fmt cols s (h s (by simp)),
      ih (fun t ht => h t (by simp [ht]))]
    rfl

/-- The sample the replay source reconstructs from a written line: the
first column holds the written token as a string, every other column holds
the value the token denotes. -/
def readBack (fmt : ℚ → Str) (c0 : Str) (cs : List Str) (s : Sample) : Sample :=
  (c0, Value.str (valStr fmt (sampleVal s c0))) :: cs.map (fun c => (c, sampleVal s c))

/-- The numeric payload of a sample value (0 for a string value). -/
def numOf (s : Sample) (c : Str) : ℚ :=
  match sampleVal s c with
  | .num q => q
  | .str _ => 0

theorem readsample_written_line (fmt : ℚ → Str) (c0 : Str) (cs : List Str)
    (hnd : (c0 :: cs).Nodup) (s : Sample) (pre rest : List Str) (b : Bool)
    (hpre : ∀ p ∈ pre, (p ++ ['\n']).head? = some '#')
    (h2 : ∀ c ∈ c0 :: cs, valStr fmt (sampleVal s c) ≠ [] ∧
      ∀ ch ∈ valStr fmt (sampleVal s c), isWs ch = false)
    (h3 : (valStr fmt (sampleVal s c0)).head? ≠ some '#')
    (h4 : ∀ c ∈ cs, ∃ q, sampleVal s c = .num q ∧ parseFloat (fmt q) = some q) :
    ReadSensorFile.readsample
        ⟨pre ++ joinTabs ((c0 :: cs).map (fun c => valStr fmt (sampleVal s c))) :: rest,
          b, c0 :: cs⟩
      = .ok (⟨rest, b, c0 :: cs⟩, some (readBack fmt c0 cs s)) := by
  have htok0 := h2 c0 (by simp)
  have hhead : (joinTabs ((c0 :: cs).map (fun c => valStr fmt (sampleVal s c)))
      ++ ['\n']).head? ≠ some '#' := by
    rw [List.map_cons, head_joinTabs _ _ htok0.1]
    exact h3
  have hskip : skipHash (pre ++ joinTabs ((c0 :: cs).map (fun c => valStr fmt (sampleVal s c)))
      :: rest) = some (joinTabs ((c0 :: cs).map (fun c => valStr fmt (sampleVal s c))), rest) := by
    rw [skipHash_comments pre _ hpre, skipHash, if_neg hhead]
  have hsplit : splitWs (joinTabs ((c0 :: cs).map (fun c => valStr fmt (sampleVal s c)))
      ++ ['\n']) = (c0 :: cs).map (fun c => valStr fmt (sampleVal s c)) := by
    refine splitWs_joinTabs _ (fun t ht => ?_)
    obtain ⟨c, hc, rfl⟩ := List.mem_map.mp ht
    exact h2 c hc
  have hparse : parseFloats (cs.map (fun c => valStr fmt (sampleVal s c)))
      = .ok (cs.map (fun c => numOf s c)) := by
    refine parseFloats_map cs _ _ (fun c hc => ?_)
    obtain ⟨q, hq, hpq⟩ := h4 c hc
    rw [hq, valStr, numOf, hq]
    exact hpq
  have hdata : Value.str (valStr fmt (sampleVal s c0))
      :: (cs.map (fun c => numOf s c)).map Value.num
      = Value.str (valStr fmt (sampleVal s c0)) :: cs.map (fun c => sampleVal s c) := by
    rw [List.map_map]
    congr 1
    refine map_eq_of_mem cs _ _ (fun c hc => ?_)
    obtain ⟨q, hq, -⟩ := h4 c hc
    show Value.num (numOf s c) = sampleVal s c
    rw [numOf, hq]
  have hbuild : buildSample (c0 :: cs)
      (Value.str (valStr fmt (sampleVal s c0)) :: cs.map (fun c => sampleVal s c))
      = .ok (readBack fmt c0 cs s) := by
    rw [buildSample_eq_zip _ _ hnd (by simp), List.zip_cons_cons, zip_map_self]
    rfl
  rw [ReadSensorFile.readsample]
  simp only [List.map_cons] at hskip hsplit ⊢
  simp only [hskip, hsplit, hparse, hdata, hbuild]

theorem file_readsample_comments (cols : List Str) (b : Bool) (pre : List Str)
    (hpre : ∀ p ∈ pre, (p ++ ['\n']).head? = some '#') :
    ReadSensorFile.readsample ⟨pre, b, cols⟩ = .ok (⟨[], true, cols⟩, none) := by
  rw [ReadSensorFile.readsample]
  have hnone : skipHash pre = none := by
    have h := skipHash_comments pre [] hpre
    simpa using h
  simp only [hnone]

theorem file_readsamples_comments (cols : List Str) (b : Bool) (pre : List Str)
    (n : ℤ) (hn : n ≠ 0)
    (hpre : ∀ p ∈ pre, (p ++ ['\n']).head? = some '#') :
    ReadSensorFile.readsamples ⟨pre, b, cols⟩ n = .ok (⟨[], true, cols⟩, []) := by
  rw [ReadSensorFile.readsamples, if_neg hn]
  split
  next e he => rw [file_readsample_comments cols b pre hpre] at he; simp at he
  next r' he =>
    rw [file_readsample_comments cols b pre hpre] at he
    simp only [Except.ok.injEq, Prod.mk.injEq, and_true] at he
    subst he
    rfl
  next r' s he => rw [file_readsample_comments cols b pre hpre] at he; simp at he

theorem readsamples_file_body (fmt : ℚ → Str) (c0 : Str) (cs : List Str)
    (hnd : (c0 :: cs).Nodup) (samples : List Sample) (pre : List Str) (b : Bool)
    (n : ℤ) (hn : n < 0)
    (hpre : ∀ p ∈ pre, (p ++ ['\n']).head? = some '#')
    (h2 : ∀ s ∈ samples, ∀ c ∈ c0 :: cs, valStr fmt (sampleVal s c) ≠ [] ∧
      ∀ ch ∈ valStr fmt (sampleVal s c), isWs ch = false)
    (h3 : ∀ s ∈ samples, (valStr fmt (sampleVal s c0)).head? ≠ some '#')
    (h4 : ∀ s ∈ samples, ∀ c ∈ cs, ∃ q, sampleVal s c = .num q ∧ parseFloat (fmt q) = some q) :
    ReadSensorFile.readsamples
        ⟨pre ++ samples.map (fun s =>
          joinTabs ((c0 :: cs).map (fun c => valStr fmt (sampleVal s c)))), b, c0 :: cs⟩ n
      = .ok (⟨[], true, c0 :: cs⟩, samples.map (readBack fmt c0 cs)) := by
  induction samples generalizing pre n with
  | nil =>
    rw [List.map_nil, List.append_nil]
    exact file_readsamples_comments (c0 :: cs) b pre n (by omega) hpre
  | cons s ss ih =>
    have hline := readsample_written_line fmt c0 cs hnd s pre
      (ss.map (fun t => joinTabs ((c0 :: cs).map (fun c => valStr fmt (sampleVal t c))))) b
      hpre (h2 s (by simp)) (h3 s (by simp)) (h4 s (by simp))
    rw [List.map_cons, ReadSensorFile.readsamples, if_neg (by omega : ¬ n = 0)]
    split
    next e he => rw [hline] at he; simp at he
    next r' he => rw [hline] at he; simp at he
    next r' smp he =>
      rw [hline] at he
      simp only [Except.ok.injEq, Prod.mk.injEq, Option.some.injEq] at he
      obtain ⟨hr', hsmp⟩ := he
      subst hr'
      subst hsmp
      have hrec := ih [] (n - 1) (by omega) (fun p hp => absurd hp (List.not_mem_nil p))
        (fun t ht => h2 t (by simp [ht])) (fun t ht => h3 t (by simp [ht]))
        (fun t ht => h4 t (by simp [ht]))
      rw [List.nil_append] at hrec
      rw [hrec]
      rfl

theorem lookup_graph (cs : List Str) (f : Str → Value) (c : Str) (hnd : cs.Nodup)
    (h : c ∈ cs) : dictLookup (cs.map (fun c => (c, f c))) c = some (f c) := by
  induction cs with
  | nil => simp at h
  | cons d rest ih =>
    simp only [List.nodup_cons] at hnd
    rcases List.mem_cons.mp h with rfl | hm
    · simp [dictLookup]
    · have hdc : ¬ d = c := by
        intro he
        exact hnd.1 (he ▸ hm)
      simp only [List.map_cons, dictLookup, if_neg hdc]
      exact ih hnd.2 hm

/-! ## Claim theorem C4 -/

/-- C4: writing any batch of samples over the configured (duplicate-free,
nonempty) columns with the sink and reading the file back with the replay
source yields exactly as many samples as were written; each read-back
sample agrees with the original on every column after the first, and on the
first column it holds the written token as a string.  The hypotheses state
the well-formedness of the formatted tokens (nonempty, whitespace-free,
first token not starting the comment mark) and that numeric formatting
round-trips through parsing — "up to floating-point formatting precision". -/
theorem C4_write_read_roundtrip (fmt : ℚ → Str) (fname dateStr c0 : Str) (cs : List Str)
    (samples : List Sample)
    (hnd : (c0 :: cs).Nodup)
    (H1 : ∀ s ∈ samples, ∀ c ∈ c0 :: cs, ∃ v, dictLookup s c = some v)
    (H2 : ∀ s ∈ samples, ∀ c ∈ c0 :: cs, valStr fmt (sampleVal s c) ≠ [] ∧
      ∀ ch ∈ valStr fmt (sampleVal s c), isWs ch = false)
    (H3 : ∀ s ∈ samples, (valStr fmt (sampleVal s c0)).head? ≠ some '#')
    (H4 : ∀ s ∈ samples, ∀ c ∈ cs, ∃ q, sampleVal s c = .num q ∧
      parseFloat (fmt q) = some q) :
    ∃ fileLines,
      writeSensorFile fmt (some fname) (c0 :: cs) dateStr samples = .ok fileLines ∧
      ReadSensorFile.readsamples ⟨fileLines, false, c0 :: cs⟩ (-1)
        = .ok (⟨[], true, c0 :: cs⟩, samples.map (readBack fmt c0 cs)) ∧
      (samples.map (readBack fmt c0 cs)).length = samples.length ∧
      ∀ s ∈ samples,
        dictLookup (readBack fmt c0 cs s) c0
          = some (.str (valStr fmt (sampleVal s c0))) ∧
        ∀ c ∈ cs, dictLookup (readBack fmt c0 cs s) c = dictLookup s c := by
  have hbody := write_samples_ok fmt (c0 :: cs) samples H1
  refine ⟨('#' :: ' ' :: dateStr) :: ('#' :: joinTabs (c0 :: cs)) ::
    samples.map (fun s => joinTabs ((c0 :: cs).map (fun c => valStr fmt (sampleVal s c)))),
    ?_, ?_, by simp, ?_⟩
  · simp only [writeSensorFile, hbody]
  · have hread := readsamples_file_body fmt c0 cs hnd samples
      [('#' :: ' ' :: dateStr), ('#' :: joinTabs (c0 :: cs))] false (-1) (by omega)
      (by intro p hp
          rcases List.mem_cons.mp hp with rfl | hp2
          · rfl
          · simp only [List.mem_singleton] at hp2
            subst hp2
            rfl)
      H2 H3 H4
    exact hread
  · intro s hs
    simp only [List.nodup_cons] at hnd
    constructor
    · simp [readBack, dictLookup]
    · intro c hc
      have hc0 : ¬ c0 = c := by
        intro he
        exact hnd.1 (he ▸ hc)
      rw [readBack]
      simp only [dictLookup, if_neg hc0]
      rw [lookup_graph cs _ c hnd.2 hc]
      obtain ⟨v, hv⟩ := H1 s hs c (List.mem_cons_of_mem c0 hc)
      rw [hv]
      simp [sampleVal, hv]

theorem C4_write_read_roundtrip_witness :
    ∃ fileLines : List Str,
      writeSensorFile (fun q => if q = 5 then ['5'] else ['0'])
          (some ['f']) [['t'], ['v']] ['d']
          [[(['t'], Value.str ['a']), (['v'], Value.num 5)]] = .ok fileLines ∧
      ReadSensorFile.readsamples ⟨fileLines, false, [['t'], ['v']]⟩ (-1)
        = .ok (⟨[], true, [['t'], ['v']]⟩,
            [[(['t'], Value.str ['a']), (['v'], Value.num 5)]].map
              (readBack (fun q => if q = 5 then ['5'] else ['0']) ['t'] [['v']])) ∧
      ([[(['t'], Value.str ['a']), (['v'], Value.num 5)]].map
          (readBack (fun q => if q = 5 then ['5'] else ['0']) ['t'] [['v']])).length
        = [[(['t'], Value.str ['a']), (['v'], Value.num 5)]].length ∧
      ∀ s ∈ [[(['t'], Value.str ['a']), (['v'], Value.num 5)]],
        dictLookup (readBack (fun q => if q = 5 then ['5'] else ['0'])
            ['t'] [['v']] s) ['t']
          = some (.str (valStr (fun q => if q = 5 then ['5'] else ['0'])
              (sampleVal s ['t']))) ∧
        ∀ c ∈ [['v']],
          dictLookup (readBack (fun q => if q = 5 then ['5'] else ['0'])
              ['t'] [['v']] s) c
            = dictLookup s c :=
  C4_write_read_roundtrip (fun q => if q = 5 then ['5'] else ['0'])
    ['f'] ['d'] ['t'] [['v']] [[(['t'], Value.str ['a']), (['v'], Value.num 5)]]
    (by decide)
    (by intro s hs c hc
        simp only [List.mem_singleton] at hs
        subst hs
        rcases List.mem_cons.mp hc with rfl | hc2
        · exact ⟨.str ['a'], by decide⟩
        · simp only [List.mem_singleton] at hc2
          subst hc2
          exact ⟨.num 5, by decide⟩)
    (by decide)
    (by decide)
    (by intro s hs c hc
        simp only [List.mem_singleton] at hs
        subst hs
        simp only [List.mem_singleton] at hc
        subst hc
        exact ⟨5, by decide, by decide⟩)

end Aves
